import Mathlib

/-!
# Daylang / Solace lexer (`src/slex.c`)

A shallow embedding of the lexer of the Solace compiler and a verification of
the statements its specification makes about it.

Conventions of the embedding.

* A `FILE*` opened for reading is the list of the bytes that have not been read
  yet (`Stream`); `ungetc` puts one byte back in front of that list.
* `char` is the signed 8-bit type of the x86 targets: the `int` returned by
  `fgetc` is narrowed with `toChar`, so that the byte `0xFF` reads as `-1`,
  which is the value of `EOF`.
* Character values are `Int`. The global `lineno` is a C `int`: its value is an
  `Int` and `lineno += 1` wraps around at `2147483647` (`toInt`).
* The heap buffer `string_token` is the list of the characters stored in it.
* The variable `number_literal` is a pointer (`CharPtr`): a heap buffer with
  its contents, or a bare address. `walk_number` assigns the first digit to the
  pointer itself (slex.c:135), so the pointer is the address `0x30` to `0x39`,
  which no process has mapped: reading the string behind it (`strlen`,
  slex.c:143 and slex.c:156) is a memory fault, which ends the process.
* The top-level loop of `lex_source_file` is run with a step budget
  (`scan_loop`); `lex_source_file` gives it one step per byte of the file and
  one more for the final end-of-input read.
-/

namespace Slex

/-! ## The stream -/

/-- The C macro `EOF`. -/
def EOF : Int := -1

/-- The bytes of the source file that are still to be read. -/
abbrev Stream := List (Fin 256)

/-- Narrowing of an `int` to a signed 8-bit `char`. -/
def toChar (v : Int) : Int := (v + 128) % 256 - 128

/-- Conversion of an `int` to `unsigned char`, as `ungetc` does. -/
def toByte (c : Int) : Fin 256 := ⟨(c % 256).toNat, by omega⟩

/-- The library call `fgetc`: the next byte as an `int`, or `EOF`. -/
def fgetc : Stream → Int × Stream
  | [] => (EOF, [])
  | b :: rest => ((b.val : Int), rest)

/-- The library call `ungetc`: fails and leaves the stream as it is when given
`EOF`, else pushes the character back as an `unsigned char`. -/
def ungetc (c : Int) (sourcefile : Stream) : Stream :=
  if c = EOF then sourcefile else toByte c :: sourcefile

/-- The function `walk` (slex.c:76): consume a character and return it as `char`. -/
def walk (sourcefile : Stream) : Int × Stream :=
  (toChar (fgetc sourcefile).1, (fgetc sourcefile).2)

/-- The function `peek` (slex.c:84): read a character, push it back unless it
compares equal to `EOF`, and return it. -/
def peek (sourcefile : Stream) : Int × Stream :=
  let next_char := toChar (fgetc sourcefile).1
  let sourcefile1 := (fgetc sourcefile).2
  if next_char ≠ EOF then (next_char, ungetc next_char sourcefile1)
  else (next_char, sourcefile1)

/-! ## Tokens -/

/-- Modelled from the spec: the token categories of the missing header `slex.h`.
The source names `STRING_LITERAL`, `INT_LITERAL` and `FLOAT_LITERAL`; the
specification adds `IDENTIFIER`, one tag per punctuation symbol, `END_OF_LINE`
and an error tag. -/
inductive TokenKind
  | STRING_LITERAL
  | INT_LITERAL
  | FLOAT_LITERAL
  | IDENTIFIER
  | PUNCTUATION (symbol : Int)
  | END_OF_LINE
  | ERROR
  deriving DecidableEq

/-- Modelled from the spec: the token record of the missing header `slex.h`:
category, captured text, line and name of the source unit. -/
structure Token where
  kind : TokenKind
  lexeme : List Int
  line : Int
  source_name : String
  deriving DecidableEq

/-- Modelled from the spec: the missing constructor `build_token`, which fills
the four fields of a token. -/
def build_token (category : TokenKind) (lexeme : List Int) (line : Int)
    (source_name : String) : Token :=
  ⟨category, lexeme, line, source_name⟩

/-- Modelled from the spec: the missing `append_to_stack`, which grows the
token sequence by one token at its end. -/
def append_to_stack (stack : List Token) (t : Token) : List Token :=
  stack ++ [t]

/-! ## The scanners -/

/-- The variables of `walk_string` when its loop is left. -/
structure StringScan where
  next_character : Int
  sourcefile : Stream
  string_token : List Int
  stack : List Token
  deriving DecidableEq

/-- The loop of `walk_string` (slex.c:103). The loop head is
`next_character = walk(sourcefile) != EOF`: the comparison binds tighter than
the assignment, so `next_character` receives its truth value. -/
def walk_string_loop (lineno : Int) (sourcefilename : String) :
    Stream → List Int → List Token → StringScan
  | [], string_token, stack => ⟨0, [], string_token, stack⟩
  | b :: rest, string_token, stack =>
    let next_character : Int := if toChar (b.val : Int) ≠ EOF then 1 else 0
    if next_character = 0 then
      ⟨next_character, rest, string_token, stack⟩
    else if next_character = 34 then
      ⟨next_character, rest, string_token,
        append_to_stack stack (build_token .STRING_LITERAL string_token lineno sourcefilename)⟩
    else
      walk_string_loop lineno sourcefilename rest (string_token ++ [next_character]) stack

/-- The two ways `walk_string` ends: it returns, or it reports an unclosed
string and ends the run. -/
inductive StringResult
  | returned (sourcefile : Stream) (stack : List Token)
  | unclosed_string (preview : List Int) (lineno : Int)
  deriving DecidableEq

/-- The function `walk_string` (slex.c:98), entered after the opening quote.
The buffer starts with the one character stored at slex.c:100, read as the
quote character; no token or message built by the code below ever shows it. -/
def walk_string (lineno : Int) (sourcefilename : String) (sourcefile : Stream)
    (stack : List Token) : StringResult :=
  let r := walk_string_loop lineno sourcefilename sourcefile [34] stack
  if r.next_character = EOF then
    .unclosed_string (r.string_token.take 15) lineno
  else
    .returned r.sourcefile r.stack

/-- A C pointer to `char`: a heap buffer, given by the characters of the string
stored in it, or a bare address that `malloc` did not return. -/
inductive CharPtr
  | buffer (contents : List Int)
  | address (value : Int)
  deriving DecidableEq

/-- The string read through a pointer, as `strlen` and `build_token` read it:
the contents of a heap buffer, and a memory fault (`none`) for a bare
address. -/
def c_string : CharPtr → Option (List Int)
  | .buffer contents => some contents
  | .address _ => none

/-- The two statements `p = realloc(p, strlen(p) + 1); p[strlen(p)] = c;`
(slex.c:152-153): one more character at the end of the buffer, and a memory
fault (`none`) when `strlen` reads through a bare address. -/
def store_char (p : CharPtr) (c : Int) : Option CharPtr :=
  match c_string p with
  | some contents => some (.buffer (contents ++ [c]))
  | none => none

/-- The variables of `walk_number` when its loop is left. -/
structure NumberScan where
  next_character : Int
  sourcefile : Stream
  number_literal : CharPtr
  category : TokenKind
  stack : List Token
  deriving DecidableEq

/-- How the loop of `walk_number` ends: it is left, or a memory fault ends the
process. -/
inductive NumberLoop
  | stopped (scan : NumberScan)
  | faulted
  deriving DecidableEq

/-- The loop of `walk_number` (slex.c:139). -/
def walk_number_loop (lineno : Int) (sourcefilename : String) :
    Stream → CharPtr → TokenKind → List Token → NumberLoop
  | [], number_literal, category, stack =>
    .stopped ⟨EOF, [], number_literal, category, stack⟩
  | b :: rest, number_literal, category, stack =>
    let next_character : Int := toChar (b.val : Int)
    if next_character = EOF then
      .stopped ⟨next_character, rest, number_literal, category, stack⟩
    else if next_character = 32 ∨ ¬ (next_character ≥ 48 ∧ next_character ≤ 57)
        ∨ ¬ (next_character = 46) then
      match c_string number_literal with
      | none => .faulted
      | some text =>
        .stopped ⟨next_character, rest, number_literal, category,
          append_to_stack stack (build_token category text lineno sourcefilename)⟩
    else if next_character = 46 then
      match store_char number_literal next_character with
      | none => .faulted
      | some number_literal1 =>
        walk_number_loop lineno sourcefilename rest number_literal1 .FLOAT_LITERAL stack
    else
      match store_char number_literal next_character with
      | none => .faulted
      | some number_literal1 =>
        walk_number_loop lineno sourcefilename rest number_literal1 category stack

/-- How `walk_number` ends: it returns, with the stream and the token sequence,
or a memory fault ends the process. -/
inductive NumberResult
  | returned (sourcefile : Stream) (stack : List Token)
  | faulted
  deriving DecidableEq

/-- The function `walk_number` (slex.c:133), entered with the first digit
already consumed. The assignment `number_literal = first_num` (slex.c:135)
makes the pointer the bare address `first_num`; then come the loop, the token
built at end of input (slex.c:155-159), and the final `ungetc`. -/
def walk_number (lineno : Int) (sourcefilename : String) (sourcefile : Stream)
    (stack : List Token) (first_num : Int) : NumberResult :=
  match walk_number_loop lineno sourcefilename sourcefile (.address first_num)
      .INT_LITERAL stack with
  | .faulted => .faulted
  | .stopped r =>
    if r.next_character = EOF then
      match c_string r.number_literal with
      | none => .faulted
      | some text =>
        .returned (ungetc r.next_character r.sourcefile)
          (append_to_stack r.stack (build_token r.category text lineno sourcefilename))
    else
      .returned (ungetc r.next_character r.sourcefile) r.stack

/-- The function `walk_word` (slex.c:171): its body is empty. -/
def walk_word (sourcefile : Stream) (stack : List Token) (_first_char : Int) :
    Stream × List Token :=
  (sourcefile, stack)

/-- The function `build_special_token` (slex.c:181). It receives the stream and
the character, not the token sequence, and every case of its `switch` is a
bare `break`. -/
def build_special_token (sourcefile : Stream) (current_char : Int) : Stream :=
  if current_char = 40 then sourcefile
  else if current_char = 41 then sourcefile
  else if current_char = 91 then sourcefile
  else if current_char = 93 then sourcefile
  else if current_char = 123 then sourcefile
  else if current_char = 125 then sourcefile
  else if current_char = 126 then sourcefile
  else if current_char = 124 then sourcefile
  else sourcefile

/-! ## The top-level loop -/

/-- Narrowing to the 32-bit C `int`: the value `lineno += 1` leaves in the line
counter, which wraps around from `2147483647` to `-2147483648`. -/
def toInt (v : Int) : Int := (v + 2147483648) % 4294967296 - 2147483648

/-- The fatal errors of a lex run. -/
inductive LexError
  | file_open (file_name : String)
  | unclosed_string (preview : List Int) (lineno : Int)
  deriving DecidableEq

/-- What a lex run leaves behind: the returned token sequence and the value of
the global `lineno`, or a fatal error, or a memory fault, or an exhausted step
budget. -/
inductive Outcome
  | returned (stack : List Token) (lineno : Int)
  | fatal (err : LexError)
  | faulted
  | out_of_steps
  deriving DecidableEq

/-- The `while` loop of `lex_source_file` (slex.c:50), one iteration per unit
of `steps`. -/
def scan_loop (sourcefilename : String) :
    Nat → Stream → List Token → Int → Outcome
  | 0, _, _, _ => .out_of_steps
  | steps + 1, sourcefile, stack, lineno =>
    let current_char := (walk sourcefile).1
    let sourcefile1 := (walk sourcefile).2
    if current_char = EOF then
      .returned stack lineno
    else if current_char = 10 then
      scan_loop sourcefilename steps sourcefile1 stack (toInt (lineno + 1))
    else if current_char = 34 then
      match walk_string lineno sourcefilename sourcefile1 stack with
      | .returned sourcefile2 stack2 => scan_loop sourcefilename steps sourcefile2 stack2 lineno
      | .unclosed_string preview l => .fatal (.unclosed_string preview l)
    else if current_char ≥ 48 ∧ current_char ≤ 57 then
      match walk_number lineno sourcefilename sourcefile1 stack current_char with
      | .returned sourcefile2 stack2 => scan_loop sourcefilename steps sourcefile2 stack2 lineno
      | .faulted => .faulted
    else if (current_char ≥ 65 ∧ current_char ≤ 90) ∨ (current_char ≥ 97 ∧ current_char ≤ 122)
        ∨ current_char = 95 then
      scan_loop sourcefilename steps sourcefile1 stack lineno
    else
      scan_loop sourcefilename steps (build_special_token sourcefile1 current_char) stack lineno

/-- The function `lex_source_file` (slex.c:29). `contents` is what `fopen`
gives for `file_name` (`none` when the file cannot be opened) and `lineno` is
the value of the global line counter when the function is entered. -/
def lex_source_file (lineno : Int) (file_name : String) (contents : Option Stream) : Outcome :=
  match contents with
  | none => .fatal (.file_open file_name)
  | some sourcefile => scan_loop file_name (sourcefile.length + 1) sourcefile [] lineno

/-- The bytes of an ASCII text, as a source file holds them. -/
def bytes (s : String) : Stream := s.toList.map (fun c => toByte (c.toNat : Int))

/-- The characters of an ASCII text, as a lexeme holds them. -/
def chars (s : String) : List Int := s.toList.map (fun c => (c.toNat : Int))

/-- What one iteration of the `while` loop of `lex_source_file` does: it leaves
the loop, or it goes on with a new stream, token sequence and line counter, or
it ends the run with a fatal error or with a memory fault. -/
inductive Step
  | leave
  | next (sourcefile : Stream) (stack : List Token) (lineno : Int)
  | fatal (err : LexError)
  | faulted
  deriving DecidableEq

/-- The body of the `while` loop of `lex_source_file` (slex.c:50-67), with its
loop test: one iteration, from the `walk` of the loop head to the end of the
dispatch. -/
def scan_step (sourcefilename : String) (sourcefile : Stream) (stack : List Token)
    (lineno : Int) : Step :=
  let current_char := (walk sourcefile).1
  let sourcefile1 := (walk sourcefile).2
  if current_char = EOF then
    .leave
  else if current_char = 10 then
    .next sourcefile1 stack (toInt (lineno + 1))
  else if current_char = 34 then
    match walk_string lineno sourcefilename sourcefile1 stack with
    | .returned sourcefile2 stack2 => .next sourcefile2 stack2 lineno
    | .unclosed_string preview l => .fatal (.unclosed_string preview l)
  else if current_char ≥ 48 ∧ current_char ≤ 57 then
    match walk_number lineno sourcefilename sourcefile1 stack current_char with
    | .returned sourcefile2 stack2 => .next sourcefile2 stack2 lineno
    | .faulted => .faulted
  else if (current_char ≥ 65 ∧ current_char ≤ 90) ∨ (current_char ≥ 97 ∧ current_char ≤ 122)
      ∨ current_char = 95 then
    .next sourcefile1 stack lineno
  else
    .next (build_special_token sourcefile1 current_char) stack lineno

/-! ## The cursor -/

/-- A byte other than `0xFF` does not read as `EOF`, and pushing its `char`
value back restores the byte. -/
theorem toByte_toChar (b : Fin 256) (h : b ≠ 255) :
    toChar (b.val : Int) ≠ EOF ∧ toByte (toChar (b.val : Int)) = b := by
  have hb : b.val < 256 := b.isLt
  have hne : b.val ≠ 255 := fun hv => h (Fin.ext hv)
  refine ⟨?_, ?_⟩
  · unfold toChar EOF
    omega
  · apply Fin.ext
    show (toChar (b.val : Int) % 256).toNat = b.val
    unfold toChar
    omega

/-- The value `peek` returns is the value `walk` returns, on every stream. -/
theorem peek_value_eq_walk (sourcefile : Stream) :
    (peek sourcefile).1 = (walk sourcefile).1 := by
  unfold peek walk
  dsimp only
  split <;> rfl

/-- On a stream that is empty or starts with a byte other than `0xFF`, `peek`
leaves the stream as it was. -/
theorem peek_keeps_stream (sourcefile : Stream)
    (h : ∀ b rest, sourcefile = b :: rest → b ≠ 255) :
    (peek sourcefile).2 = sourcefile := by
  cases sourcefile with
  | nil => decide
  | cons b rest =>
    have hb := toByte_toChar b (h b rest rfl)
    simp [peek, fgetc, ungetc, hb.1, hb.2]

/-! ## The scanners, on every input -/

/-- The loop of `walk_string` never appends a token and always ends with
`next_character` equal to 0, whatever the input holds. -/
theorem walk_string_loop_inert (lineno : Int) (sourcefilename : String) (sourcefile : Stream)
    (string_token : List Int) (stack : List Token) :
    (walk_string_loop lineno sourcefilename sourcefile string_token stack).stack = stack
      ∧ (walk_string_loop lineno sourcefilename sourcefile string_token stack).next_character
        = 0 := by
  induction sourcefile generalizing string_token with
  | nil => exact ⟨rfl, rfl⟩
  | cons b rest ih =>
    unfold walk_string_loop
    by_cases hb : toChar (b.val : Int) = EOF
    · simp [hb]
    · simp [hb, ih]

/-- The function `walk_string` always returns, with the token sequence it was
given: it never reports an unclosed string. -/
theorem walk_string_returns (lineno : Int) (sourcefilename : String) (sourcefile : Stream)
    (stack : List Token) :
    walk_string lineno sourcefilename sourcefile stack =
      .returned (walk_string_loop lineno sourcefilename sourcefile [34] stack).sourcefile
        stack := by
  have h := walk_string_loop_inert lineno sourcefilename sourcefile [34] stack
  unfold walk_string
  simp [h.1, h.2, EOF]

/-- The end-of-number test of `walk_number` (slex.c:140) holds for every
character. -/
theorem number_test_always (c : Int) :
    c = 32 ∨ ¬ (c ≥ 48 ∧ c ≤ 57) ∨ ¬ (c = 46) := by
  omega


/-- Every call of `walk_number` ends in a memory fault: the pointer
`number_literal` is the bare address `first_num`, and both the token built in
the loop (slex.c:143) and the token built at end of input (slex.c:156) read the
string behind it before anything is appended or pushed back. -/
theorem walk_number_faults (lineno : Int) (sourcefilename : String) (sourcefile : Stream)
    (stack : List Token) (first_num : Int) :
    walk_number lineno sourcefilename sourcefile stack first_num = .faulted := by
  cases sourcefile with
  | nil => rfl
  | cons b rest =>
    have ht := number_test_always (toChar (b.val : Int))
    unfold walk_number walk_number_loop
    dsimp only
    by_cases hb : toChar (b.val : Int) = EOF
    · rw [if_pos hb]
      simp [hb, c_string]
    · rw [if_neg hb, if_pos ht]
      simp [c_string]

/-! ## The top-level loop, on every input -/

/-- The loop of `lex_source_file` runs `scan_step` once per unit of its budget. -/
theorem scan_loop_succ (sourcefilename : String) (steps : Nat) (sourcefile : Stream)
    (stack : List Token) (lineno : Int) :
    scan_loop sourcefilename (steps + 1) sourcefile stack lineno =
      match scan_step sourcefilename sourcefile stack lineno with
      | .leave => .returned stack lineno
      | .next sourcefile1 stack1 lineno1 => scan_loop sourcefilename steps sourcefile1 stack1 lineno1
      | .fatal err => .fatal err
      | .faulted => .faulted := by
  unfold scan_step
  rw [scan_loop]
  dsimp only
  split_ifs <;> try rfl
  all_goals split <;> rfl

/-- The byte `0xFF` is the only byte that `walk` reads as `EOF`. -/
theorem toChar_eq_EOF_iff (b : Fin 256) : toChar (b.val : Int) = EOF ↔ b = 255 := by
  have hb : b.val < 256 := b.isLt
  constructor
  · intro h
    apply Fin.ext
    show b.val = 255
    unfold toChar EOF at h
    omega
  · intro h
    subst h
    decide

/-- A byte below 128 keeps its value when read as a `char`; a byte from 128 on
reads as a negative `char`. -/
theorem toChar_range (b : Fin 256) :
    (b.val < 128 → toChar (b.val : Int) = (b.val : Int))
      ∧ (128 ≤ b.val → toChar (b.val : Int) < 0) := by
  have hb : b.val < 256 := b.isLt
  unfold toChar
  constructor <;> intro h <;> omega

/-- The loop of `walk_string` consumes its input up to and including the first
byte `0xFF`, or all of it when it holds no such byte. -/
theorem walk_string_loop_stream (lineno : Int) (sourcefilename : String) (sourcefile : Stream)
    (string_token : List Int) (stack : List Token) :
    (walk_string_loop lineno sourcefilename sourcefile string_token stack).sourcefile
      = (sourcefile.dropWhile (fun b => decide (b ≠ 255))).tail := by
  induction sourcefile generalizing string_token with
  | nil => rfl
  | cons b rest ih =>
    unfold walk_string_loop
    by_cases hb : b = 255
    · subst hb
      have hE : toChar (((255 : Fin 256).val : Nat) : Int) = EOF := by decide
      simp [hE, List.dropWhile_cons]
    · have hE : ¬ toChar (b.val : Int) = EOF := fun h => hb ((toChar_eq_EOF_iff b).1 h)
      simp only [hE, ne_eq, not_false_eq_true, if_true, one_ne_zero, if_false]
      rw [List.dropWhile_cons]
      simpa [hb] using ih (string_token ++ [1])

/-- The loop of `walk_string` leaves behind a stream that is never longer than
the one it was given. -/
theorem walk_string_loop_length (lineno : Int) (sourcefilename : String) (sourcefile : Stream)
    (string_token : List Int) (stack : List Token) :
    (walk_string_loop lineno sourcefilename sourcefile string_token stack).sourcefile.length
      ≤ sourcefile.length := by
  induction sourcefile generalizing string_token with
  | nil => simp [walk_string_loop]
  | cons b rest ih =>
    unfold walk_string_loop
    by_cases hb : toChar (b.val : Int) = EOF
    · simp [hb]
    · simp only [hb, ne_eq, not_false_eq_true, if_true, one_ne_zero, if_false]
      have := ih (string_token ++ [1])
      simp
      omega

/-- On an input without the byte `0xFF`, the loop of `walk_string` reads to the
end of the input. -/
theorem walk_string_loop_all (lineno : Int) (sourcefilename : String) (sourcefile : Stream)
    (string_token : List Int) (stack : List Token) (h : ∀ b ∈ sourcefile, b ≠ 255) :
    (walk_string_loop lineno sourcefilename sourcefile string_token stack).sourcefile = [] := by
  induction sourcefile generalizing string_token with
  | nil => rfl
  | cons b rest ih =>
    have hb : ¬ toChar (b.val : Int) = EOF :=
      fun hE => h b (List.mem_cons_self b rest) ((toChar_eq_EOF_iff b).1 hE)
    unfold walk_string_loop
    simp only [hb, ne_eq, not_false_eq_true, if_true, one_ne_zero, if_false]
    simpa using ih (string_token ++ [1]) (fun x hx => h x (List.mem_cons_of_mem b hx))

/-- One iteration on a non-empty stream, by the first byte: `0xFF` leaves the
loop, a newline counts a line, a double quote runs `walk_string`, a digit runs
`walk_number`, which faults, and any other byte is passed over. -/
theorem scan_step_cons (sourcefilename : String) (b : Fin 256) (rest : Stream)
    (stack : List Token) (lineno : Int) :
    scan_step sourcefilename (b :: rest) stack lineno =
      if b.val = 255 then .leave
      else if b.val = 10 then .next rest stack (toInt (lineno + 1))
      else if b.val = 34 then
        .next (walk_string_loop lineno sourcefilename rest [34] stack).sourcefile stack lineno
      else if 48 ≤ b.val ∧ b.val ≤ 57 then .faulted
      else .next rest stack lineno := by
  have hb : b.val < 256 := b.isLt
  have hE := toChar_eq_EOF_iff b
  have hr := toChar_range b
  unfold scan_step
  simp only [walk, fgetc]
  by_cases h1 : b.val = 255
  · rw [if_pos h1, if_pos (hE.2 (Fin.ext h1))]
  · have h1c : ¬ toChar (b.val : Int) = EOF := fun h => h1 (congrArg Fin.val (hE.1 h))
    rw [if_neg h1, if_neg h1c]
    by_cases hlow : b.val < 128
    · have hv := hr.1 hlow
      rw [hv]
      by_cases h2 : b.val = 10
      · rw [if_pos h2, if_pos (by omega)]
      · rw [if_neg h2, if_neg (by omega)]
        by_cases h3 : b.val = 34
        · rw [if_pos h3, if_pos (by omega), walk_string_returns]
        · rw [if_neg h3, if_neg (by omega)]
          by_cases h4 : 48 ≤ b.val ∧ b.val ≤ 57
          · rw [if_pos h4, if_pos (by omega), walk_number_faults]
          · rw [if_neg h4, if_neg (by omega)]
            split_ifs <;> simp [build_special_token]
    · have hneg := hr.2 (by omega)
      rw [if_neg (by omega), if_neg (by omega), if_neg (by omega), if_neg (by omega),
        if_neg (by omega), if_neg (by omega), if_neg (by omega)]
      simp [build_special_token]


/-- What one iteration can do: it leaves the loop, or it faults, or it goes on
with a strictly shorter stream and the same token sequence. It is never fatal
and it never appends a token. -/
theorem scan_step_cases (sourcefilename : String) (sourcefile : Stream) (stack : List Token)
    (lineno : Int) :
    scan_step sourcefilename sourcefile stack lineno = .leave
      ∨ scan_step sourcefilename sourcefile stack lineno = .faulted
      ∨ ∃ sourcefile1 lineno1, sourcefile1.length < sourcefile.length
          ∧ scan_step sourcefilename sourcefile stack lineno
              = .next sourcefile1 stack lineno1 := by
  cases sourcefile with
  | nil => exact Or.inl rfl
  | cons b rest =>
    rw [scan_step_cons]
    by_cases h1 : b.val = 255
    · exact Or.inl (if_pos h1)
    · rw [if_neg h1]
      by_cases h2 : b.val = 10
      · rw [if_pos h2]
        exact Or.inr (Or.inr ⟨rest, _, by simp, rfl⟩)
      · rw [if_neg h2]
        by_cases h3 : b.val = 34
        · rw [if_pos h3]
          refine Or.inr (Or.inr ⟨_, _, ?_, rfl⟩)
          have := walk_string_loop_length lineno sourcefilename rest [34] stack
          simp only [List.length_cons]
          omega
        · rw [if_neg h3]
          by_cases h4 : 48 ≤ b.val ∧ b.val ≤ 57
          · rw [if_pos h4]
            exact Or.inr (Or.inl rfl)
          · rw [if_neg h4]
            exact Or.inr (Or.inr ⟨rest, _, by simp, rfl⟩)

/-- Each iteration that does not end the run strictly shortens the stream and
leaves the token sequence as it was. -/
theorem scan_step_shorter (sourcefilename : String) (sourcefile : Stream) (stack : List Token)
    (lineno : Int) (sourcefile1 : Stream) (stack1 : List Token) (lineno1 : Int)
    (h : scan_step sourcefilename sourcefile stack lineno = .next sourcefile1 stack1 lineno1) :
    sourcefile1.length < sourcefile.length ∧ stack1 = stack := by
  rcases scan_step_cases sourcefilename sourcefile stack lineno with h0 | h0 | ⟨s, l, hs, h1⟩
  · rw [h0] at h
    cases h
  · rw [h0] at h
    cases h
  · rw [h1] at h
    cases h
    exact ⟨hs, rfl⟩

/-- No iteration is fatal. -/
theorem scan_step_not_fatal (sourcefilename : String) (sourcefile : Stream) (stack : List Token)
    (lineno : Int) (err : LexError) :
    scan_step sourcefilename sourcefile stack lineno ≠ .fatal err := by
  intro h
  rcases scan_step_cases sourcefilename sourcefile stack lineno with h0 | h0 | ⟨s, l, _, h1⟩
  · rw [h0] at h
    cases h
  · rw [h0] at h
    cases h
  · rw [h1] at h
    cases h

/-- With more steps than bytes, the loop ends: it returns the token sequence
it was given, or it faults. -/
theorem scan_loop_ends (sourcefilename : String) (steps : Nat) :
    ∀ (sourcefile : Stream) (stack : List Token) (lineno : Int),
      sourcefile.length < steps →
      (∃ lineno1, scan_loop sourcefilename steps sourcefile stack lineno
          = .returned stack lineno1)
        ∨ scan_loop sourcefilename steps sourcefile stack lineno = .faulted := by
  induction steps with
  | zero => intro s st l h; omega
  | succ k ih =>
    intro s st l h
    rw [scan_loop_succ]
    cases hstep : scan_step sourcefilename s st l with
    | leave => exact Or.inl ⟨l, rfl⟩
    | next s1 st1 l1 =>
      have := scan_step_shorter sourcefilename s st l s1 st1 l1 hstep
      rw [this.2]
      exact ih s1 st l1 (by omega)
    | fatal err => exact absurd hstep (scan_step_not_fatal sourcefilename s st l err)
    | faulted => exact Or.inr rfl

/-- Whatever the number of steps, a token sequence the loop returns is the one
it was given: no iteration appends a token. -/
theorem scan_loop_returned_stack (sourcefilename : String) (steps : Nat) :
    ∀ (sourcefile : Stream) (stack : List Token) (lineno : Int) (stack1 : List Token)
      (lineno1 : Int),
      scan_loop sourcefilename steps sourcefile stack lineno = .returned stack1 lineno1 →
      stack1 = stack := by
  induction steps with
  | zero =>
    intro s st l st1 l1 h
    simp [scan_loop] at h
  | succ k ih =>
    intro s st l st1 l1 h
    rw [scan_loop_succ] at h
    cases hstep : scan_step sourcefilename s st l with
    | leave =>
      rw [hstep] at h
      cases h
      rfl
    | next s1 st2 l2 =>
      rw [hstep] at h
      have := scan_step_shorter sourcefilename s st l s1 st2 l2 hstep
      rw [← this.2]
      exact ih s1 st2 l2 st1 l1 h
    | fatal err =>
      rw [hstep] at h
      cases h
    | faulted =>
      rw [hstep] at h
      cases h

/-- With more steps than bytes, the number of steps does not matter. -/
theorem scan_loop_steps (sourcefilename : String) (steps : Nat) :
    ∀ (steps1 : Nat) (sourcefile : Stream) (stack : List Token) (lineno : Int),
      sourcefile.length < steps → sourcefile.length < steps1 →
      scan_loop sourcefilename steps sourcefile stack lineno
        = scan_loop sourcefilename steps1 sourcefile stack lineno := by
  induction steps with
  | zero => intro k1 s st l h; omega
  | succ k ih =>
    intro k1 s st l h h1
    cases k1 with
    | zero => omega
    | succ j =>
      rw [scan_loop_succ, scan_loop_succ]
      cases hstep : scan_step sourcefilename s st l with
      | leave => rfl
      | next s1 st1 l1 =>
        have := scan_step_shorter sourcefilename s st l s1 st1 l1 hstep
        exact ih j s1 st1 l1 (by omega) (by omega)
      | fatal err => rfl
      | faulted => rfl

/-- On an input without ASCII digit the loop returns, with the token sequence
it was given. -/
theorem scan_loop_no_digit (sourcefilename : String) (steps : Nat) :
    ∀ (sourcefile : Stream) (stack : List Token) (lineno : Int),
      sourcefile.length < steps →
      (∀ b ∈ sourcefile, ¬ (48 ≤ b.val ∧ b.val ≤ 57)) →
      ∃ lineno1, scan_loop sourcefilename steps sourcefile stack lineno
          = .returned stack lineno1 := by
  induction steps with
  | zero => intro s st l h; omega
  | succ k ih =>
    intro s st l h hd
    rw [scan_loop_succ]
    cases s with
    | nil => exact ⟨l, rfl⟩
    | cons b rest =>
      have hb := hd b (List.mem_cons_self b rest)
      have hrest : ∀ x ∈ rest, ¬ (48 ≤ x.val ∧ x.val ≤ 57) :=
        fun x hx => hd x (List.mem_cons_of_mem b hx)
      have hlen : rest.length < k := by simpa using h
      rw [scan_step_cons]
      by_cases h1 : b.val = 255
      · rw [if_pos h1]
        exact ⟨l, rfl⟩
      · rw [if_neg h1]
        by_cases h2 : b.val = 10
        · rw [if_pos h2]
          exact ih rest st _ hlen hrest
        · rw [if_neg h2]
          by_cases h3 : b.val = 34
          · rw [if_pos h3, walk_string_loop_stream]
            refine ih _ st l ?_ ?_
            · have := walk_string_loop_length l sourcefilename rest [34] st
              rw [walk_string_loop_stream] at this
              omega
            · intro x hx
              exact hrest x (List.dropWhile_sublist _ |>.subset (List.mem_of_mem_tail hx))
          · rw [if_neg h3, if_neg hb]
            exact ih rest st l hlen hrest

/-- Whether the loop returns, and what token sequence it returns, does not
depend on the value of the line counter it starts from. -/
theorem scan_loop_any_lineno (sourcefilename : String) (steps : Nat) :
    ∀ (sourcefile : Stream) (stack : List Token) (lineno : Int) (stack1 : List Token)
      (lineno1 : Int) (lineno2 : Int),
      scan_loop sourcefilename steps sourcefile stack lineno = .returned stack1 lineno1 →
      ∃ lineno3, scan_loop sourcefilename steps sourcefile stack lineno2
          = .returned stack1 lineno3 := by
  induction steps with
  | zero =>
    intro s st l st1 l1 l2 h
    simp [scan_loop] at h
  | succ k ih =>
    intro s st l st1 l1 l2 h
    rw [scan_loop_succ] at h ⊢
    cases s with
    | nil =>
      have hnil : ∀ x, scan_step sourcefilename [] st x = .leave := fun _ => rfl
      rw [hnil] at h ⊢
      cases h
      exact ⟨l2, rfl⟩
    | cons b rest =>
      rw [scan_step_cons] at h ⊢
      by_cases h1 : b.val = 255
      · rw [if_pos h1] at h ⊢
        cases h
        exact ⟨l2, rfl⟩
      · rw [if_neg h1] at h ⊢
        by_cases h2 : b.val = 10
        · rw [if_pos h2] at h ⊢
          exact ih rest st _ st1 l1 _ h
        · rw [if_neg h2] at h ⊢
          by_cases h3 : b.val = 34
          · rw [if_pos h3, walk_string_loop_stream] at h ⊢
            exact ih _ st l st1 l1 l2 h
          · rw [if_neg h3] at h ⊢
            by_cases h4 : 48 ≤ b.val ∧ b.val ≤ 57
            · rw [if_pos h4] at h
              cases h
            · rw [if_neg h4] at h ⊢
              exact ih rest st l st1 l1 l2 h


/-- When no byte `0xFF` follows a double quote, the loop ends on the whole
input as it ends on the part that precedes the quote. -/
theorem scan_loop_before_quote (sourcefilename : String) (rest : Stream)
    (hrest : ∀ b ∈ rest, b ≠ 255) (steps : Nat) :
    ∀ (pre : Stream) (stack : List Token) (lineno : Int),
      pre.length < steps → (∀ b ∈ pre, b ≠ 34) →
      scan_loop sourcefilename (steps + (rest.length + 1)) (pre ++ 34 :: rest) stack lineno
        = scan_loop sourcefilename steps pre stack lineno := by
  induction steps with
  | zero => intro pre st l h; omega
  | succ j ih =>
    intro pre st l hlen hpre
    have e : j + 1 + (rest.length + 1) = (j + (rest.length + 1)) + 1 := by omega
    rw [e, scan_loop_succ, scan_loop_succ]
    cases pre with
    | nil =>
      have e1 : j + (rest.length + 1) = (j + rest.length) + 1 := by omega
      have hall := walk_string_loop_all l sourcefilename rest [34] st hrest
      have hnil : scan_step sourcefilename [] st l = .leave := rfl
      rw [List.nil_append, scan_step_cons, if_neg (by decide), if_neg (by decide),
        if_pos (by decide), hall, hnil]
      dsimp only
      rw [e1, scan_loop_succ, hnil]
    | cons b p =>
      have hb34 : b.val ≠ 34 := fun h => hpre b (List.mem_cons_self b p) (Fin.ext h)
      have hp : ∀ x ∈ p, x ≠ 34 := fun x hx => hpre x (List.mem_cons_of_mem b hx)
      have hj : p.length < j := by simpa using hlen
      rw [List.cons_append, scan_step_cons, scan_step_cons]
      by_cases h255 : b.val = 255
      · rw [if_pos h255, if_pos h255]
      · rw [if_neg h255, if_neg h255]
        by_cases h10 : b.val = 10
        · rw [if_pos h10, if_pos h10]
          exact ih p st _ hj hp
        · rw [if_neg h10, if_neg h10, if_neg hb34, if_neg hb34]
          by_cases hd : 48 ≤ b.val ∧ b.val ≤ 57
          · rw [if_pos hd, if_pos hd]
          · rw [if_neg hd, if_neg hd]
            exact ih p st l hj hp

/-- When no byte `0xFF` follows the first double quote, `lex_source_file` ends
on the whole input as it ends on the part that precedes the quote. -/
theorem lex_source_file_before_quote (lineno : Int) (file_name : String) (pre rest : Stream)
    (hpre : ∀ b ∈ pre, b ≠ 34) (hrest : ∀ b ∈ rest, b ≠ 255) :
    lex_source_file lineno file_name (some (pre ++ 34 :: rest))
      = lex_source_file lineno file_name (some pre) := by
  have e : (pre ++ 34 :: rest).length + 1 = (pre.length + 1) + (rest.length + 1) := by
    simp
    omega
  show scan_loop file_name ((pre ++ 34 :: rest).length + 1) (pre ++ 34 :: rest) [] lineno
    = scan_loop file_name (pre.length + 1) pre [] lineno
  rw [e]
  exact scan_loop_before_quote file_name rest hrest (pre.length + 1) pre [] lineno
    (by omega) hpre

/-- A token sequence that `lex_source_file` returns is empty: neither scanner
ever appends a token. -/
theorem lex_source_file_returns_empty (lineno : Int) (file_name : String)
    (contents : Option Stream) (stack : List Token) (lineno1 : Int)
    (h : lex_source_file lineno file_name contents = .returned stack lineno1) :
    stack = [] := by
  cases contents with
  | none => cases h
  | some s => exact scan_loop_returned_stack file_name _ s [] lineno stack lineno1 h

/-- On a file that can be opened, `lex_source_file` returns the empty token
sequence or ends in a memory fault; it never exhausts its steps and never
reports an error. -/
theorem lex_source_file_ends (lineno : Int) (file_name : String) (sourcefile : Stream) :
    (∃ lineno1, lex_source_file lineno file_name (some sourcefile) = .returned [] lineno1)
      ∨ lex_source_file lineno file_name (some sourcefile) = .faulted :=
  scan_loop_ends file_name (sourcefile.length + 1) sourcefile [] lineno (by omega)

/-! ## Evaluation of the lexer on the inputs of the specification -/

/-- C1: the specification asks that the quoted inputs `"hello"` and `""` give
exactly one STRING_LITERAL token (lexeme `hello`, resp. empty). The code gives
no token for either: `walk_string` stores the truth value of the comparison
with `EOF` in `next_character`, never sees the closing quote, and reads on to
the end of the input. -/
theorem string_literal_gives_no_token :
    lex_source_file 1 "a.solace" (some (bytes "\"hello\"")) = .returned [] 1
      ∧ lex_source_file 1 "a.solace" (some (bytes "\"\"")) = .returned [] 1 := by
  decide

/-- C2: the specification asks that the input `"unterminated`, which ends
before a closing quote, raises the fatal unclosed-string error. The code
returns normally, with an empty token sequence: after the loop of
`walk_string` the variable `next_character` holds 0, which is not `EOF`. -/
theorem unterminated_string_not_fatal :
    lex_source_file 1 "a.solace" (some (bytes "\"unterminated")) = .returned [] 1 := by
  decide

/-- C3: the specification asks that the input `123` gives one INT_LITERAL token
with lexeme `123`. The code gives no token and does not return: the main loop
reads `1` and calls `walk_number`, which has made `number_literal` the address
`0x31` (slex.c:135) and faults when `strlen` reads through it (slex.c:143). The
same happens for the single digit `1`, at slex.c:156. -/
theorem digits_end_in_fault :
    lex_source_file 1 "a.solace" (some (bytes "123")) = .faulted
      ∧ walk_number 1 "a.solace" (bytes "23") [] 49 = .faulted
      ∧ lex_source_file 1 "a.solace" (some (bytes "1")) = .faulted := by
  decide

/-- C4: the specification asks that the input `12.5` gives one FLOAT_LITERAL
token with lexeme `12.5`. The code gives no token and does not return: it
faults in `walk_number` at the first digit, before the dot is read. -/
theorem float_ends_in_fault :
    lex_source_file 1 "a.solace" (some (bytes "12.5")) = .faulted
      ∧ walk_number 1 "a.solace" (bytes "2.5") [] 49 = .faulted := by
  decide

/-- C5: the specification asks that the input `12)` gives INT_LITERAL `12`
followed by the punctuation token of `)`. The code gives no token and does not
return: it faults in `walk_number` at the first digit, and `)` is never
reached. (Alone, `)` gives no token either: see C7.) -/
theorem number_then_paren_ends_in_fault :
    lex_source_file 1 "a.solace" (some (bytes "12)")) = .faulted
      ∧ walk_number 1 "a.solace" (bytes "2)") [] 49 = .faulted := by
  decide

/-- C6: the specification asks that the input `foo_bar1` gives one IDENTIFIER
token with lexeme `foo_bar1`. The code gives no IDENTIFIER: the branch of the
loop for letters and underscore is empty, so the word `foo_bar` is skipped
letter by letter and lexed to the empty token sequence; on `foo_bar1` the
final digit then sends the run into `walk_number`, which faults. -/
theorem word_gives_no_identifier :
    lex_source_file 1 "a.solace" (some (bytes "foo_bar")) = .returned [] 1
      ∧ lex_source_file 1 "a.solace" (some (bytes "foo_bar1")) = .faulted := by
  decide

/-- C7: the specification asks that each of the eight punctuation characters
`( ) [ ] { } ~ |` makes the classifier append exactly one token. In the code an
input made of any one of them is lexed to the empty token sequence:
`build_special_token` appends nothing. -/
theorem punctuation_gives_no_token :
    ([40, 41, 91, 93, 123, 125, 126, 124] : List (Fin 256)).map
        (fun p => lex_source_file 1 "a.solace" (some [p]))
      = List.replicate 8 (.returned [] 1) := by
  decide

/-- C8: the specification asks that the string literal `"a"`, a newline and
`123` give a STRING_LITERAL token on line 1 and an INT_LITERAL token on line 2.
The code gives no token, and the line counter is still 1 at the end:
`walk_string` reads the closing quote, the newline and the digits as string
content. -/
theorem two_line_input_gives_no_token :
    lex_source_file 1 "a.solace" (some (bytes "\"a\"\n123")) = .returned [] 1 := by
  decide

/-- C10: the specification asks that `peek` returns what `walk` would return
and leaves the stream as it was. On a stream that starts with the byte `0xFF`
followed by `A`, `peek` returns the same value as `walk` (the byte reads as
`EOF`), but it does not push the byte back: the stream after `peek` has lost
it, and the `walk` issued next returns `A`. -/
theorem peek_consumes_byte_255 :
    (peek [255, 65]).1 = (walk [255, 65]).1
      ∧ (peek [255, 65]).1 = EOF
      ∧ (peek [255, 65]).2 = [65]
      ∧ (peek [255, 65]).2 ≠ [255, 65]
      ∧ (walk (peek [255, 65]).2).1 = 65 := by
  decide

/-- C14: the specification asks that the line counter grows by one for every
newline byte consumed, inside a string literal too. For the input made of a
double quote, `a`, a newline, `b` and a double quote, the iteration that reads
the opening quote consumes the rest of the input, newline included, and leaves
the line counter at 1; the run ends with the counter at 1 although the input
holds one newline. -/
theorem newline_in_string_not_counted :
    scan_step "a.solace" (bytes "\"a\nb\"") [] 1 = .next [] [] 1
      ∧ lex_source_file 1 "a.solace" (some (bytes "\"a\nb\"")) = .returned [] 1
      ∧ (bytes "\"a\nb\"").count 10 = 1 := by
  decide


/-! ## The statements of the specification about the loop and the scanners -/

/-- C9: when a run of `lex_source_file` on a source returns, a second run on
the same unchanged source, started from the line counter the first run left
behind, returns as well, with the identical token sequence. -/
theorem second_run_same_tokens (lineno : Int) (file_name : String) (contents : Option Stream)
    (stack : List Token) (lineno1 : Int)
    (h : lex_source_file lineno file_name contents = .returned stack lineno1) :
    ∃ lineno2, lex_source_file lineno1 file_name contents = .returned stack lineno2 := by
  cases contents with
  | none => cases h
  | some s => exact scan_loop_any_lineno file_name _ s [] lineno stack lineno1 lineno1 h

/-- Witness of C9 on the two-line input `a`, newline, `(b)`, newline: the first
run leaves the line counter at 3, and the second run, started from 3, returns
the same token sequence. -/
theorem second_run_same_tokens_witness :
    lex_source_file 1 "a.solace" (some (bytes "a\n(b)\n")) = .returned [] 3
      ∧ ∃ lineno2, lex_source_file 3 "a.solace" (some (bytes "a\n(b)\n"))
          = .returned [] lineno2 :=
  ⟨by decide, second_run_same_tokens 1 "a.solace" (some (bytes "a\n(b)\n")) [] 3 (by decide)⟩

/-- C11: for every input and every starting value of the line counter, the
line numbers of the tokens in a token sequence that `lex_source_file` returns
are non-decreasing in sequence order. (The sequence is in fact empty: no run
appends a token.) -/
theorem token_lines_nondecreasing (lineno : Int) (file_name : String)
    (contents : Option Stream) (stack : List Token) (lineno1 : Int)
    (h : lex_source_file lineno file_name contents = .returned stack lineno1) :
    stack.Pairwise (fun a b => a.line ≤ b.line) ∧ stack = [] := by
  have hs := lex_source_file_returns_empty lineno file_name contents stack lineno1 h
  subst hs
  exact ⟨List.Pairwise.nil, rfl⟩

/-- Witness of C11 on the input `a`, newline, `b`, lexed from the largest value
of the line counter, which wraps around at the newline. -/
theorem token_lines_nondecreasing_witness :
    lex_source_file 2147483647 "a.solace" (some (bytes "a\nb")) = .returned [] (-2147483648)
      ∧ ([] : List Token).Pairwise (fun a b => a.line ≤ b.line) ∧ ([] : List Token) = [] :=
  ⟨by decide,
    token_lines_nondecreasing 2147483647 "a.solace" (some (bytes "a\nb")) [] (-2147483648)
      (by decide)⟩

/-- C12: the top-level loop terminates on every finite input. The loop runs
the iteration `scan_step`; an iteration that goes on leaves a strictly shorter
stream; the iteration at the end of the input leaves the loop; within its
budget of one step per byte plus one, `lex_source_file` never runs out of
steps: the run ends by a return or, when a digit sends it into `walk_number`,
by a memory fault; and on an input without digit it ends by a return. -/
theorem scan_loop_terminates (lineno : Int) (file_name : String) (sourcefile : Stream)
    (stack : List Token) :
    (∀ steps, scan_loop file_name (steps + 1) sourcefile stack lineno =
        match scan_step file_name sourcefile stack lineno with
        | .leave => .returned stack lineno
        | .next sourcefile1 stack1 lineno1 => scan_loop file_name steps sourcefile1 stack1 lineno1
        | .fatal err => .fatal err
        | .faulted => .faulted)
      ∧ (∀ sourcefile1 stack1 lineno1,
          scan_step file_name sourcefile stack lineno = .next sourcefile1 stack1 lineno1 →
          sourcefile1.length < sourcefile.length)
      ∧ scan_step file_name [] stack lineno = .leave
      ∧ lex_source_file lineno file_name (some sourcefile) ≠ .out_of_steps
      ∧ ((∃ lineno1, lex_source_file lineno file_name (some sourcefile) = .returned [] lineno1)
          ∨ lex_source_file lineno file_name (some sourcefile) = .faulted)
      ∧ ((∀ b ∈ sourcefile, ¬ (48 ≤ b.val ∧ b.val ≤ 57)) →
          ∃ lineno1, lex_source_file lineno file_name (some sourcefile)
            = .returned [] lineno1) := by
  have hends := lex_source_file_ends lineno file_name sourcefile
  refine ⟨fun steps => scan_loop_succ file_name steps sourcefile stack lineno,
    fun s1 st1 l1 h => (scan_step_shorter file_name sourcefile stack lineno s1 st1 l1 h).1,
    rfl, ?_, hends, ?_⟩
  · intro h
    rcases hends with ⟨l1, h1⟩ | h1
    · rw [h1] at h
      cases h
    · rw [h1] at h
      cases h
  · intro hd
    exact scan_loop_no_digit file_name (sourcefile.length + 1) sourcefile [] lineno
      (by omega) hd

/-- Witness of C12 on the input `ab`: the iteration that reads `a` leaves the
stream `b`, shorter than `ab`, and the run returns. -/
theorem scan_loop_terminates_witness :
    ([98] : Stream).length < ([97, 98] : Stream).length
      ∧ ∃ lineno1, lex_source_file 1 "a.solace" (some [97, 98]) = .returned [] lineno1 :=
  ⟨(scan_loop_terminates 1 "a.solace" [97, 98] []).2.1 [98] [] 1 (by decide),
    (scan_loop_terminates 1 "a.solace" [97, 98] []).2.2.2.2.2 (by simp; decide)⟩

/-- C13: the specification asks that an input without double quote is lexed to
the end of the input and that a token sequence is returned. The input `a$1#`
holds no double quote, and the run ends in a memory fault when `walk_number`
is entered at the digit: no token sequence is returned. On the input made of
the byte `0xFF` and `a` the loop is left at the first byte, with `a` unread:
the run returns without reaching the end of the input. -/
theorem quote_free_input_not_lexed_to_end :
    (bytes "a$1#").all (fun b => decide (b ≠ 34)) = true
      ∧ lex_source_file 1 "a.solace" (some (bytes "a$1#")) = .faulted
      ∧ scan_step "a.solace" [255, 97] [] 1 = .leave
      ∧ lex_source_file 1 "a.solace" (some [255, 97]) = .returned [] 1 := by
  decide

/-- C16: the specification notes that the end-of-number test is true for every
character and concludes that `walk_number` reads at most one character and
appends exactly one token. The test is indeed true for every character, and
the loop of `walk_number` either faults or is left at end of input with at
most one byte read, the category still INT_LITERAL and no token appended; but
every call of `walk_number` ends in a memory fault before `append_to_stack`:
no token is appended. -/
theorem number_scanner_appends_no_token (lineno : Int) (file_name : String)
    (sourcefile : Stream) (stack : List Token) (first_num : Int) :
    (∀ c : Int, c = 32 ∨ ¬ (c ≥ 48 ∧ c ≤ 57) ∨ ¬ (c = 46))
      ∧ (walk_number_loop lineno file_name sourcefile (.address first_num) .INT_LITERAL stack
            = .faulted
          ∨ walk_number_loop lineno file_name sourcefile (.address first_num) .INT_LITERAL stack
            = .stopped ⟨EOF, sourcefile.tail, .address first_num, .INT_LITERAL, stack⟩)
      ∧ walk_number lineno file_name sourcefile stack first_num = .faulted := by
  refine ⟨number_test_always, ?_,
    walk_number_faults lineno file_name sourcefile stack first_num⟩
  cases sourcefile with
  | nil => exact Or.inr rfl
  | cons b rest =>
    have ht := number_test_always (toChar (b.val : Int))
    unfold walk_number_loop
    dsimp only
    by_cases hb : toChar (b.val : Int) = EOF
    · rw [if_pos hb, hb]
      exact Or.inr rfl
    · rw [if_neg hb, if_pos ht]
      exact Or.inl rfl

/-- C17: the specification asks that the character on which the number
scanner stops is pushed back so that the main loop reads it once more, and
that at the end of the input the remaining input stays empty. After the digit
`1`, on the remaining input `)x` the scanner reads `)` and faults at
slex.c:143, before the `ungetc` of slex.c:161: nothing is pushed back and the
main loop never reads `)`; on the empty remaining input it faults at
slex.c:156. -/
theorem number_scanner_faults_before_pushback :
    walk_number 1 "a.solace" (bytes ")x") [] 49 = .faulted
      ∧ lex_source_file 1 "a.solace" (some (bytes "1)x")) = .faulted
      ∧ walk_number 1 "a.solace" [] [] 49 = .faulted
      ∧ lex_source_file 1 "a.solace" (some (bytes "1")) = .faulted := by
  decide

/-- C18: for every input lexed from a line counter of 1, every token of a
token sequence that `lex_source_file` returns is built from a lexical unit
whose first character stands at some place of the input, and carries as its
line 1 plus the number of newline bytes that precede that place. (The sequence
is in fact empty: no run appends a token.) -/
theorem token_line_is_start_line (file_name : String) (sourcefile : Stream)
    (stack : List Token) (lineno1 : Int)
    (h : lex_source_file 1 file_name (some sourcefile) = .returned stack lineno1) :
    (∀ t ∈ stack, ∃ pre d post, sourcefile = pre ++ d :: post
        ∧ t.lexeme.head? = some (d.val : Int)
        ∧ t.line = 1 + (pre.count 10 : Nat))
      ∧ stack = [] := by
  have hs := lex_source_file_returns_empty 1 file_name (some sourcefile) stack lineno1 h
  subst hs
  exact ⟨by simp, rfl⟩

/-- Witness of C18 on the two-line input `a`, newline, `(b)`. -/
theorem token_line_is_start_line_witness :
    lex_source_file 1 "a.solace" (some (bytes "a\n(b)")) = .returned [] 2
      ∧ (∀ t ∈ ([] : List Token), ∃ pre d post, bytes "a\n(b)" = pre ++ d :: post
          ∧ t.lexeme.head? = some (d.val : Int)
          ∧ t.line = 1 + (pre.count 10 : Nat))
      ∧ ([] : List Token) = [] :=
  ⟨by decide, token_line_is_start_line "a.solace" (bytes "a\n(b)") [] 2 (by decide)⟩

/-- C19, as stated: the claim is that `walk_string` consumes its whole input
and that lexing an input gives the token sequence of the part before its first
double quote. On the remaining input `0xFF`, `1` the string scanner stops
after the byte `0xFF` and leaves `1` unread; so on the input made of a double
quote, `0xFF` and `1` the main loop goes on to the digit and the run ends in a
memory fault, while the part before the first double quote, which is empty,
is lexed to the empty token sequence. -/
theorem string_scanner_stops_at_byte_255 :
    walk_string 1 "a.solace" [255, 49] [] = .returned [49] []
      ∧ lex_source_file 1 "a.solace" (some [34, 255, 49]) = .faulted
      ∧ ([34, 255, 49] : Stream).takeWhile (fun b => b ≠ 34) = []
      ∧ lex_source_file 1 "a.solace" (some []) = .returned [] 1 := by
  decide

/-- C19, amended: for every remaining input `walk_string` returns with the
token sequence it was given (no token, no error), having consumed the input up
to and including its first byte `0xFF`; for a remaining input `rest` that holds
no byte `0xFF` it consumes all of it; consequently, for every input
`pre ++ 34 :: rest` in which `pre` holds no double quote and `rest` no byte
`0xFF`, lexing the input ends as lexing `pre` ends, with the same outcome and
the same token sequence. -/
theorem lex_ignores_after_quote (lineno : Int) (file_name : String) (pre rest : Stream)
    (stack : List Token) (hpre : ∀ b ∈ pre, b ≠ 34) (hrest : ∀ b ∈ rest, b ≠ 255) :
    (∀ (rest0 : Stream) (stack0 : List Token),
        walk_string lineno file_name rest0 stack0
          = .returned (rest0.dropWhile (fun b => decide (b ≠ 255))).tail stack0)
      ∧ walk_string lineno file_name rest stack = .returned [] stack
      ∧ lex_source_file lineno file_name (some (pre ++ 34 :: rest))
          = lex_source_file lineno file_name (some pre) := by
  refine ⟨?_, ?_, lex_source_file_before_quote lineno file_name pre rest hpre hrest⟩
  · intro rest0 stack0
    rw [walk_string_returns, walk_string_loop_stream]
  · rw [walk_string_returns, walk_string_loop_all lineno file_name rest [34] stack hrest]

/-- Witness of C19 on the input `a`, newline, double quote, `b`, double quote,
`c`: the part before the first double quote is `a`, newline. -/
theorem lex_ignores_after_quote_witness :
    (∀ (rest0 : Stream) (stack0 : List Token),
        walk_string 1 "a.solace" rest0 stack0
          = .returned (rest0.dropWhile (fun b => decide (b ≠ 255))).tail stack0)
      ∧ walk_string 1 "a.solace" [98, 34, 99] [] = .returned [] []
      ∧ lex_source_file 1 "a.solace" (some ([97, 10] ++ 34 :: [98, 34, 99]))
          = lex_source_file 1 "a.solace" (some [97, 10]) :=
  lex_ignores_after_quote 1 "a.solace" [97, 10] [98, 34, 99] [] (by simp) (by simp)

end Slex
